import Mathlib

/-!
# Verification of `scripts/markdown_to_json.py`

Shallow embedding of the markdown-to-JSON conversion script and proofs about
its specified behaviour.  The script parses markdown profile listings
(numbered titled sections with `- ` clue lines), converts them to profile
records, merges them into per-language JSON datasets and optionally updates a
manifest's profile counts.

Modelling conventions:
* Python strings are Lean `String`s; character-level work is done on `.data`
  (`List Char`).  Python's whitespace set (for `str.strip` and the regex
  class `\s`) is modelled by its ASCII part; `\d` is modelled by the ASCII
  digits.  All inputs appearing in the claims are ASCII.
* JSON dataset files are modelled by their parsed value, `Option Dataset`,
  where `none` stands for a file whose bytes do not parse as JSON.
* The `json.dump` / `json.load` round trip through the disk performed by
  `save_json` followed by `validate_json` is modelled by a parameter
  `we : Dataset → Option Dataset` giving the value the just-written file
  parses back as (`Option.some` is the ideal, faithful round trip; `none`
  models a write whose bytes fail to re-parse).
* Raised Python exceptions are `Except PyErr` values.
-/

namespace MarkdownToJson

/-! ## Python string primitives -/

/-- ASCII whitespace, as stripped by Python's `str.strip()` and matched by
the regex class `\s` (restricted to ASCII). -/
def pyWs (c : Char) : Bool :=
  c = ' ' || c = '\t' || c = '\n' || c = '\r' || c = '\x0b' || c = '\x0c'

/-- `str.strip()` on a character list: drop whitespace from both ends. -/
def stripChars (cs : List Char) : List Char :=
  ((cs.dropWhile pyWs).reverse.dropWhile pyWs).reverse

/-- Python `str.strip()`. -/
def pyStrip (s : String) : String := ⟨stripChars s.data⟩

/-- Python `str.lower()`, character by character (ASCII). -/
def pyLower (s : String) : String := ⟨s.data.map Char.toLower⟩

/-! ## MarkdownParser.parse_md_file -/

/-- After the dot of the header pattern `\d+\. `: a space character. -/
def headSpace : List Char → Bool
  | [] => false
  | c :: _ => c = ' '

/-- Continuation of the header pattern `\d+\. ` after its first digit:
further digits, then a dot followed by a space. -/
def headerTail : List Char → Bool
  | [] => false
  | c :: cs =>
    if c = '.' then headSpace cs
    else c.isDigit && headerTail cs

/-- Does the text start with `\d+\. ` (the lookahead of the split pattern
`re.split(r'\n(?=\d+\. )', content)`)?  Note the code requires a literal
space after the dot. -/
def isHeaderStart : List Char → Bool
  | [] => false
  | c :: cs => c.isDigit && headerTail cs

/-- `re.split(r'\n(?=\d+\. )', content)` on characters: cut at every newline
that is immediately followed by a header start.  The newline is consumed by
the match; the accumulator `cur` holds the current chunk reversed. -/
def splitSectionsAux (cur : List Char) : List Char → List (List Char)
  | [] => [cur.reverse]
  | c :: rest =>
    if c = '\n' && isHeaderStart rest then
      cur.reverse :: splitSectionsAux [] rest
    else splitSectionsAux (c :: cur) rest

/-- `sections = re.split(r'\n(?=\d+\. )', content)`. -/
def splitSections (content : String) : List String :=
  (splitSectionsAux [] content.data).map fun cs => ⟨cs⟩

/-- Python `str.split('\n')`. -/
def splitLinesAux (cur : List Char) : List Char → List String
  | [] => [⟨cur.reverse⟩]
  | c :: rest =>
    if c = '\n' then ⟨cur.reverse⟩ :: splitLinesAux [] rest
    else splitLinesAux (c :: cur) rest

/-- `re.match(r'\d+\.\s+(.+)', line)`, the part after `\d+\.`: one or more
whitespace characters, then a non-empty remainder (group 1).  `\s+` is
greedy; when the whole remainder is whitespace it backtracks to leave one
character for `(.+)`. -/
def titleAfterDot (rest : List Char) : Option (List Char) :=
  let m := (rest.takeWhile pyWs).length
  if m = 0 then none
  else if m < rest.length then some (rest.drop m)
  else if 2 ≤ m then some (rest.drop (m - 1))
  else none

/-- `re.match(r'\d+\.\s+(.+)', line)` after its first digit: further digits,
then the dot, then `titleAfterDot`. -/
def titleTail : List Char → Option (List Char)
  | [] => none
  | c :: cs =>
    if c = '.' then titleAfterDot cs
    else if c.isDigit then titleTail cs
    else none

/-- `re.match(r'\d+\.\s+(.+)', line)`: group 1, or `none` when the line does
not match. -/
def titleMatch : List Char → Option (List Char)
  | [] => none
  | c :: cs => if c.isDigit then titleTail cs else none

/-- `if line.startswith('- '): clues.append(line[2:].strip())`. -/
def clueOfLine (l : String) : Option String :=
  match l.data with
  | c1 :: c2 :: rest => if c1 = '-' && c2 = ' ' then some (pyStrip ⟨rest⟩) else none
  | _ => none

/-- The clue-collection loop `for line in lines[1:]`. -/
def extractClues (ls : List String) : List String :=
  ls.filterMap clueOfLine

/-- A parsed markdown section (`{'title': ..., 'clues': ...}`). -/
structure MDSection where
  title : String
  clues : List String
deriving Repr, DecidableEq

/-- The per-chunk work of `parse_md_file` up to (not including) the final
`if clues:` test: skip a whitespace-only chunk, strip it, split into lines,
match the title on the first line, collect the clues from the rest.  Returns
the title (group 1 stripped) and the extracted clues. -/
def chunkTitleClues (chunk : String) : Option (String × List String) :=
  let s := pyStrip chunk
  if s = "" then none
  else
    match splitLinesAux [] s.data with
    | [] => none
    | l0 :: rest =>
      if l0 = "" then none
      else
        match titleMatch l0.data with
        | none => none
        | some g => some (pyStrip ⟨g⟩, extractClues rest)

/-- One chunk of `parse_md_file`: the section appended to `movies`, if any
(`if clues: movies.append(...)`). -/
def processChunk (chunk : String) : Option MDSection :=
  match chunkTitleClues chunk with
  | none => none
  | some (t, cl) => if cl.isEmpty then none else some ⟨t, cl⟩

/-- Whether the chunk triggers the `has {n} clues, expected 20` warning
(`if len(clues) != 20`), which fires for every chunk whose title parsed. -/
def clueCountWarning (chunk : String) : Bool :=
  match chunkTitleClues chunk with
  | none => false
  | some (_, cl) => decide (cl.length ≠ 20)

/-- `MarkdownParser.parse_md_file` on the file's content. -/
def parse_md_file (content : String) : List MDSection :=
  (splitSections content).filterMap processChunk

/-! ## Profiles and datasets -/

/-- The fixed `metadata` object of a generated profile. -/
structure ProfileMetadata where
  language : String
  difficulty : String
  source : String
deriving Repr, DecidableEq

/-- A profile object as built by `ProfileGenerator.create_profile`. -/
structure Profile where
  id : String
  category : String
  name : String
  clues : List String
  metadata : ProfileMetadata
deriving Repr, DecidableEq

/-- `ProfileGenerator.create_profile`. -/
def create_profile (profile_id : String) (title : String) (clues : List String)
    (language : String) (category : String) : Profile :=
  { id := profile_id
    category := category
    name := title
    clues := clues
    metadata := { language := language, difficulty := "medium", source := "entertainment" } }

/-- A language dataset: a JSON document with a top-level `profiles` array. -/
structure Dataset where
  profiles : List Profile
deriving Repr, DecidableEq

/-! ## Files and the JSON manager -/

/-- Insert-or-update on an association list, as Python `d[k] = v`:
the first entry with the key is replaced in place, otherwise the pair is
appended (Python dicts preserve insertion order). -/
def dictInsert {β : Type} : List (String × β) → String → β → List (String × β)
  | [], k, v => [(k, v)]
  | (k', v') :: rest, k, v =>
    if k' = k then (k, v) :: rest else (k', v') :: dictInsert rest k v

/-- First-match lookup on an association list (Python `d[k]` / `k in d`). -/
def dictLookup {β : Type} : List (String × β) → String → Option β
  | [], _ => none
  | (k', v) :: rest, k => if k' = k then some v else dictLookup rest k

/-- The file system seen by the script: markdown files hold text; JSON
dataset files hold the value the file parses as, `none` when the file exists
but its bytes are not valid JSON. -/
structure FS where
  mdFiles : List (String × String)
  jsonFiles : List (String × Option Dataset)
deriving Repr, DecidableEq

/-- `Path.exists` for markdown files. -/
def FS.mdExists (fs : FS) (p : String) : Bool :=
  (dictLookup fs.mdFiles p).isSome

/-- Read a markdown file. -/
def FS.mdRead (fs : FS) (p : String) : Option String :=
  dictLookup fs.mdFiles p

/-- The parse result of a JSON file: `none` = absent, `some none` = present
but malformed, `some (some d)` = parses as `d`. -/
def FS.jsonRead (fs : FS) (p : String) : Option (Option Dataset) :=
  dictLookup fs.jsonFiles p

/-- `JSONDataManager.save_json` writes the file; `v` is the value the
written bytes parse back as. -/
def FS.jsonWrite (fs : FS) (p : String) (v : Option Dataset) : FS :=
  { fs with jsonFiles := dictInsert fs.jsonFiles p v }

/-- Python exceptions relevant to the script. -/
inductive PyErr where
  | fileNotFound
  | jsonDecode
deriving Repr, DecidableEq

/-- `JSONDataManager.load_json`: `FileNotFoundError` when the file does not
exist, `json.JSONDecodeError` when it does not parse. -/
def load_json (fs : FS) (p : String) : Except PyErr Dataset :=
  match FS.jsonRead fs p with
  | none => .error .fileNotFound
  | some none => .error .jsonDecode
  | some (some d) => .ok d

/-- `JSONDataManager.validate_json`: re-load the file, returning `false` on
a `JSONDecodeError`.  A `FileNotFoundError` is not caught and propagates. -/
def validate_json (fs : FS) (p : String) : Except PyErr Bool :=
  match load_json fs p with
  | .ok _ => .ok true
  | .error .jsonDecode => .ok false
  | .error .fileNotFound => .error .fileNotFound

/-! ## DataUpdater -/

/-- The constructor arguments of `DataUpdater` (`category`, `id_prefix`,
`json_dir`, `markdown_dir`, `start_id`).  The ID-prefix field is named
`idPref` here. -/
structure Config where
  category : String
  idPref : String
  json_dir : String
  markdown_dir : String
  start_id : Int
deriving Repr, DecidableEq

/-- The candidate paths tried by `DataUpdater.get_markdown_file`, in the
code's order: `for suffix in ['', '_' + language, '-' + language]:
for ext in [f'{suffix}.md', f'{suffix}_md.md']`. -/
def markdownCandidates (cfg : Config) (language : String) : List String :=
  (["", "_" ++ language, "-" ++ language].map fun suffix =>
    [suffix ++ ".md", suffix ++ "_md.md"].map fun ext =>
      cfg.markdown_dir ++ "/" ++ pyLower cfg.category ++ ext).flatten

/-- `DataUpdater.get_markdown_file`: the first candidate that exists, or
`none` for the raised `FileNotFoundError`. -/
def get_markdown_file (fs : FS) (cfg : Config) (language : String) : Option String :=
  (markdownCandidates cfg language).find? fun p => FS.mdExists fs p

/-- `DataUpdater.get_json_file`:
`json_dir / category.lower() / language / "data-1.json"`. -/
def get_json_file (cfg : Config) (language : String) : String :=
  cfg.json_dir ++ "/" ++ pyLower cfg.category ++ "/" ++ language ++ "/data-1.json"

/-- Zero-padding of Python's format `f"{n:03d}"`: minimum width 3, counting
a leading minus sign. -/
def padZeros (width : Nat) (s : String) : String :=
  ⟨List.replicate (width - s.length) '0'⟩ ++ s

/-- Python `f"{n:03d}"` for an `int`. -/
def pad3 (n : Int) : String :=
  if n < 0 then "-" ++ padZeros 2 (toString n.natAbs)
  else padZeros 3 (toString n.natAbs)

/-- `f"profile-{self.id_prefix}-{self.start_id + idx:03d}"`. -/
def mkProfileId (cfg : Config) (idx : Nat) : String :=
  "profile-" ++ cfg.idPref ++ "-" ++ pad3 (cfg.start_id + (idx : Int))

/-- The profile-generation loop `for idx, movie in enumerate(movies)` of
`update_language`, transcribed with the running index made explicit. -/
def newProfilesFrom (cfg : Config) (language : String) (idx : Nat) :
    List MDSection → List Profile
  | [] => []
  | m :: ms =>
    create_profile (mkProfileId cfg idx) m.title m.clues language cfg.category
      :: newProfilesFrom cfg language (idx + 1) ms

/-- The `new_profiles` list built by `update_language`. -/
def newProfiles (cfg : Config) (language : String) (movies : List MDSection) :
    List Profile :=
  newProfilesFrom cfg language 0 movies

/-- `DataUpdater.update_language`.  `we` gives the value the dataset file
parses back as after `save_json` writes it (see the module docstring);
the result is the updated file system together with the returned count. -/
def update_language (we : Dataset → Option Dataset) (cfg : Config) (fs : FS)
    (language : String) : Except PyErr (FS × Nat) :=
  match get_markdown_file fs cfg language with
  | none => .error .fileNotFound
  | some markdown_file =>
    match FS.mdRead fs markdown_file with
    | none => .error .fileNotFound
    | some content =>
      let movies := parse_md_file content
      if movies.isEmpty then .ok (fs, 0)
      else
        match load_json fs (get_json_file cfg language) with
        | .error e => .error e
        | .ok data =>
          let merged : Dataset := ⟨data.profiles ++ newProfiles cfg language movies⟩
          let fs2 := FS.jsonWrite fs (get_json_file cfg language) (we merged)
          match validate_json fs2 (get_json_file cfg language) with
          | .error e => .error e
          | .ok ok => if ok then .ok (fs2, movies.length) else .ok (fs2, 0)

/-- The loop body of `DataUpdater.update_all_languages`: any exception is
caught and recorded as a zero count; `results` is the Python dict. -/
def update_all_go (we : Dataset → Option Dataset) (cfg : Config) (fs : FS)
    (results : List (String × Nat)) : List String → FS × List (String × Nat)
  | [] => (fs, results)
  | language :: rest =>
    match update_language we cfg fs language with
    | .ok (fs', count) => update_all_go we cfg fs' (dictInsert results language count) rest
    | .error _ => update_all_go we cfg fs (dictInsert results language 0) rest

/-- `DataUpdater.update_all_languages`. -/
def update_all_languages (we : Dataset → Option Dataset) (cfg : Config) (fs : FS)
    (languages : List String) : FS × List (String × Nat) :=
  update_all_go we cfg fs [] languages

/-! ## Manifest update and `main` -/

/-- A `locales` entry of the manifest (`profileAmount`). -/
structure LocaleInfo where
  profileAmount : Nat
deriving Repr, DecidableEq

/-- A `categories` entry of the manifest. -/
structure CategoryEntry where
  slug : String
  locales : List (String × LocaleInfo)
deriving Repr, DecidableEq

/-- The manifest document. -/
structure Manifest where
  categories : List CategoryEntry
deriving Repr, DecidableEq

/-- `category['locales'][language]['profileAmount'] = new_count`. -/
def setLocaleAmount (c : CategoryEntry) (language : String) (n : Nat) : CategoryEntry :=
  { c with
    locales := c.locales.map fun kv =>
      if kv.1 = language then (kv.1, { profileAmount := n }) else kv }

/-- The inner loop of the manifest update in `main`: for each requested
language, reload that language's dataset (any failure raises and aborts the
whole step) and, when the language is a key of `locales`, overwrite its
`profileAmount` with the new total. -/
def updateCategoryLocales (fs : FS) (cfg : Config) (c : CategoryEntry) :
    List String → Except PyErr CategoryEntry
  | [] => .ok c
  | language :: rest =>
    match load_json fs (get_json_file cfg language) with
    | .error e => .error e
    | .ok data =>
      let c' := if (dictLookup c.locales language).isSome
                then setLocaleAmount c language data.profiles.length
                else c
      updateCategoryLocales fs cfg c' rest

/-- The outer loop of the manifest update in `main`: every category entry
whose slug equals the lowercased category name is updated. -/
def updateManifestCategories (fs : FS) (cfg : Config) (languages : List String) :
    List CategoryEntry → Except PyErr (List CategoryEntry)
  | [] => .ok []
  | c :: rest =>
    match (if c.slug = pyLower cfg.category
           then updateCategoryLocales fs cfg c languages
           else .ok c) with
    | .error e => .error e
    | .ok c' =>
      match updateManifestCategories fs cfg languages rest with
      | .error e => .error e
      | .ok rest' => .ok (c' :: rest')

/-- The manifest-update step of `main` (between loading and re-saving the
manifest file). -/
def update_manifest (fs : FS) (cfg : Config) (languages : List String)
    (m : Manifest) : Except PyErr Manifest :=
  match updateManifestCategories fs cfg languages m.categories with
  | .error e => .error e
  | .ok cs => .ok ⟨cs⟩

/-- The command-line arguments of `main`.  The `--id-prefix` option is named
`idPrefOpt` here.  `manifest` models `--manifest` together with the file's
state: `none` = option absent or file does not exist (step skipped),
`some none` = the manifest file exists but does not parse as JSON,
`some (some m)` = it parses as `m`. -/
structure Args where
  category : String
  idPrefOpt : Option String
  markdown_dir : String
  json_dir : String
  start_id : Int
  languages : List String
  manifest : Option (Option Manifest)

/-- `id_prefix = args.id_prefix or args.category.lower()` and the
`DataUpdater(...)` construction in `main`. -/
def cfgOfArgs (a : Args) : Config :=
  { category := a.category
    idPref := a.idPrefOpt.getD (pyLower a.category)
    json_dir := a.json_dir
    markdown_dir := a.markdown_dir
    start_id := a.start_id }

/-- The observable outcome of `main`: the process exit code, the final state
of the JSON data files, and the final parse state of the manifest file. -/
structure MainResult where
  exitCode : Nat
  fs : FS
  manifest : Option (Option Manifest)
deriving Repr, DecidableEq

/-- `main`: update all languages, sum the per-language counts, then (when a
manifest was given and exists) run the manifest step with every exception
caught — a caught exception leaves the manifest file as it was.  The exit
code is `0` when the total count is positive, else `1`. -/
def main_run (we : Dataset → Option Dataset) (fs : FS) (a : Args) : MainResult :=
  let cfg := cfgOfArgs a
  let st := update_all_languages we cfg fs a.languages
  let total_added := (st.2.map Prod.snd).sum
  let manifest' :=
    match a.manifest with
    | none => none
    | some none => some none
    | some (some m) =>
      match update_manifest st.1 cfg a.languages m with
      | .ok m' => some (some m')
      | .error _ => some (some m)
  { exitCode := if total_added > 0 then 0 else 1
    fs := st.1
    manifest := manifest' }

/-! ## Definitions modelled from the claims' words (for refinement
comparison) and concrete instances used by witnesses -/

/-- Modelled from the claim's words for C7, for comparison with
`markdownCandidates`: the three base names first and the `_md`-suffixed
variants of those names after them. -/
def markdownCandidatesSpec (cfg : Config) (language : String) : List String :=
  ([".md", "_" ++ language ++ ".md", "-" ++ language ++ ".md",
    "_md.md", "_" ++ language ++ "_md.md", "-" ++ language ++ "_md.md"]).map
    fun ext => cfg.markdown_dir ++ "/" ++ pyLower cfg.category ++ ext

/-- Concrete file system for the C7 counterexample and witness: both
`movies_md.md` and `movies_en.md` exist, `movies.md` does not. -/
def fsW7 : FS := ⟨[("md/movies_md.md", "x"), ("md/movies_en.md", "y")], []⟩

/-- Concrete configuration for the C7 counterexample and witness. -/
def cfgW7 : Config := ⟨"Movies", "movie", "jd", "md", 1⟩

/-- Modelled from the claim's words for C6: after the dot, any whitespace
character. -/
def headSpaceSpec : List Char → Bool
  | [] => false
  | c :: _ => pyWs c

/-- Modelled from the claim's words for C6 (`^\d+\.\s`): the header pattern
with any whitespace character after the dot, for comparison with
`headerTail`. -/
def headerTailSpec : List Char → Bool
  | [] => false
  | c :: cs =>
    if c = '.' then headSpaceSpec cs
    else c.isDigit && headerTailSpec cs

/-- Modelled from the claim's words for C6: does the text start with
`\d+\.\s`? -/
def isHeaderStartSpec : List Char → Bool
  | [] => false
  | c :: cs => c.isDigit && headerTailSpec cs

/-- Modelled from the claim's words for C6: split at every newline
immediately preceding a line matching `^\d+\.\s`. -/
def splitSectionsSpecAux (cur : List Char) : List Char → List (List Char)
  | [] => [cur.reverse]
  | c :: rest =>
    if c = '\n' && isHeaderStartSpec rest then
      cur.reverse :: splitSectionsSpecAux [] rest
    else splitSectionsSpecAux (c :: cur) rest

/-- Modelled from the claim's words for C6: the resulting chunk list. -/
def splitSectionsSpec (content : String) : List String :=
  (splitSectionsSpecAux [] content.data).map fun cs => ⟨cs⟩

/-- Concatenating chunks back with newlines. -/
def joinNl : List (List Char) → List Char
  | [] => []
  | [c] => c
  | c :: cs => c ++ '\n' :: joinNl cs

/-- The prefix of the text up to the first split point of the code's
chunking. -/
def firstChunk : List Char → List Char
  | [] => []
  | c :: rest =>
    if c = '\n' && isHeaderStart rest then [] else c :: firstChunk rest

/-- Concrete markdown input for the C1 witness: one section, 20 clues. -/
def mdW1 : String :=
  "1. Alpha\n- a\n- b\n- c\n- d\n- e\n- f\n- g\n- h\n- i\n- j\n- k\n- l\n- m\n- n\n- o\n- p\n- q\n- r\n- s\n- t"

/-- Concrete configuration for the C1 witness (start id 76). -/
def cfgW1 : Config := ⟨"Movies", "movie", "jd", "md", 76⟩

/-- Concrete file system for the C1 witness. -/
def fsW1 : FS := ⟨[("md/movies.md", mdW1)], [("jd/movies/en/data-1.json", some ⟨[]⟩)]⟩

/-- Concrete dataset for the C8 witness: 77 profiles (75 before the run
plus 2 added). -/
def dsW8 : Dataset := ⟨List.replicate 77 (create_profile ("p") ("t") ([]) ("en") ("Movies"))⟩

/-- Concrete file system for the C8 witness. -/
def fsW8 : FS := ⟨[], [("jd/movies/en/data-1.json", some dsW8)]⟩

/-- Concrete manifest for the C8 witness: `movies.locales.en.profileAmount`
starts at 75. -/
def manW8 : Manifest :=
  ⟨[⟨"movies", [("en", ⟨75⟩), ("fr", ⟨10⟩)]⟩, ⟨"books", [("en", ⟨3⟩)]⟩]⟩

/-! ## Association-list lemmas -/

theorem dictLookup_dictInsert_self {β : Type} (d : List (String × β)) (k : String) (v : β) :
    dictLookup (dictInsert d k v) k = some v := by
  induction d with
  | nil => simp [dictInsert, dictLookup]
  | cons kv rest ih =>
    obtain ⟨k', v'⟩ := kv
    by_cases h : k' = k
    · simp [dictInsert, dictLookup, h]
    · simp [dictInsert, dictLookup, h, ih]

theorem dictLookup_dictInsert_ne {β : Type} (d : List (String × β)) (k x : String) (v : β)
    (h : x ≠ k) : dictLookup (dictInsert d k v) x = dictLookup d x := by
  induction d with
  | nil => simp [dictInsert, dictLookup, Ne.symm h]
  | cons kv rest ih =>
    obtain ⟨k', v'⟩ := kv
    by_cases hk : k' = k
    · subst hk
      simp [dictInsert, dictLookup, Ne.symm h]
    · by_cases hx : k' = x <;> simp [dictInsert, dictLookup, hk, hx, ih, h]

theorem mem_keys_dictInsert {β : Type} (d : List (String × β)) (k x : String) (v : β) :
    x ∈ (dictInsert d k v).map Prod.fst ↔ x = k ∨ x ∈ d.map Prod.fst := by
  induction d with
  | nil => simp [dictInsert]
  | cons kv rest ih =>
    obtain ⟨k', v'⟩ := kv
    by_cases h : k' = k
    · subst h
      simp [dictInsert]
    · simp only [dictInsert, if_neg h, List.map_cons, List.mem_cons, ih]
      tauto

theorem nodup_keys_dictInsert {β : Type} (d : List (String × β)) (k : String) (v : β)
    (h : (d.map Prod.fst).Nodup) : ((dictInsert d k v).map Prod.fst).Nodup := by
  induction d with
  | nil => simp [dictInsert]
  | cons kv rest ih =>
    obtain ⟨k', v'⟩ := kv
    simp only [List.map_cons, List.nodup_cons] at h
    by_cases hk : k' = k
    · subst hk
      simpa [dictInsert] using h
    · simp only [dictInsert, if_neg hk, List.map_cons, List.nodup_cons]
      refine ⟨fun hmem => ?_, ih h.2⟩
      rcases (mem_keys_dictInsert rest k k' v).mp hmem with h' | h'
      · exact hk h'
      · exact h.1 h'

theorem dictLookup_isSome_iff {β : Type} (d : List (String × β)) (x : String) :
    (dictLookup d x).isSome = true ↔ x ∈ d.map Prod.fst := by
  induction d with
  | nil => simp [dictLookup]
  | cons kv rest ih =>
    obtain ⟨k', v'⟩ := kv
    simp only [dictLookup, List.map_cons, List.mem_cons]
    by_cases h : k' = x
    · subst h
      simp
    · simp [h, ih, Ne.symm h]

theorem dictLookup_eq_none_keys {β : Type} (d : List (String × β)) (x : String)
    (h : dictLookup d x = none) : ∀ kv ∈ d, kv.1 ≠ x := by
  induction d with
  | nil => simp
  | cons kv rest ih =>
    obtain ⟨k', v'⟩ := kv
    by_cases hk : k' = x
    · simp [dictLookup, hk] at h
    · simp only [dictLookup, if_neg hk] at h
      intro kv hmem
      rcases List.mem_cons.mp hmem with rfl | hmem
      · exact hk
      · exact ih h kv hmem

/-! ## Parser lemmas -/

/-- A chunk of the split whose `processChunk` emits a section contributes
that section to the result of `parse_md_file`. -/
theorem mem_parse_md_file (content chunk : String) (s : MDSection)
    (hc : chunk ∈ splitSections content) (hp : processChunk chunk = some s) :
    s ∈ parse_md_file content := by
  exact List.mem_filterMap.mpr ⟨chunk, hc, hp⟩

/-! ## Profile-generation lemmas -/

theorem newProfilesFrom_length (cfg : Config) (language : String) (n : Nat)
    (ms : List MDSection) : (newProfilesFrom cfg language n ms).length = ms.length := by
  induction ms generalizing n with
  | nil => rfl
  | cons m rest ih => simp [newProfilesFrom, ih]

theorem newProfilesFrom_getElem? (cfg : Config) (language : String) (n : Nat)
    (ms : List MDSection) (k : Nat) (s : MDSection) (h : ms[k]? = some s) :
    (newProfilesFrom cfg language n ms)[k]? =
      some (create_profile (mkProfileId cfg (n + k)) s.title s.clues language cfg.category) := by
  induction ms generalizing n k with
  | nil => simp at h
  | cons m rest ih =>
    cases k with
    | zero =>
      simp only [List.getElem?_cons_zero, Option.some.injEq] at h
      subst h
      simp [newProfilesFrom]
    | succ k =>
      simp only [List.getElem?_cons_succ] at h
      have := ih (n + 1) k h
      simpa [newProfilesFrom, Nat.add_assoc, Nat.add_comm 1 k] using this

/-! ## update_language lemmas -/

theorem jsonRead_jsonWrite_self (fs : FS) (p : String) (v : Option Dataset) :
    FS.jsonRead (FS.jsonWrite fs p v) p = some v := by
  simp [FS.jsonRead, FS.jsonWrite, dictLookup_dictInsert_self]

theorem validate_json_jsonWrite_some (fs : FS) (p : String) (d : Dataset) :
    validate_json (FS.jsonWrite fs p (some d)) p = .ok true := by
  simp [validate_json, load_json, jsonRead_jsonWrite_self]

theorem validate_json_jsonWrite_none (fs : FS) (p : String) :
    validate_json (FS.jsonWrite fs p none) p = .ok false := by
  simp [validate_json, load_json, jsonRead_jsonWrite_self]

theorem load_json_ok_read (fs : FS) (p : String) (d : Dataset)
    (h : load_json fs p = .ok d) : FS.jsonRead fs p = some (some d) := by
  unfold load_json at h
  cases hr : FS.jsonRead fs p <;> rw [hr] at h
  · exact absurd h (by simp)
  · rename_i o
    cases o <;> simp_all

/-! ## Claim C1 -/

/-- C1: on a markdown input whose parsed sections all have exactly 20 clues
(and at least one section parses, the markdown file resolves and the dataset
file loads), `update_language` with a faithful write appends exactly one
profile per parsed section to the dataset's profiles list, in parse order,
returns the section count, and the k-th appended profile (0-based) has id
`profile-<id_prefix>-<start_id + k>` with the number zero-padded to 3
digits. -/
theorem C1_sequential_ids (cfg : Config) (fs : FS) (language p content : String)
    (d : Dataset)
    (h1 : get_markdown_file fs cfg language = some p)
    (h2 : FS.mdRead fs p = some content)
    (h20 : ∀ s ∈ parse_md_file content, s.clues.length = 20)
    (hne : parse_md_file content ≠ [])
    (hload : load_json fs (get_json_file cfg language) = .ok d) :
    update_language Option.some cfg fs language =
      .ok (FS.jsonWrite fs (get_json_file cfg language)
             (some ⟨d.profiles ++ newProfiles cfg language (parse_md_file content)⟩),
           (parse_md_file content).length) ∧
    (newProfiles cfg language (parse_md_file content)).length =
      (parse_md_file content).length ∧
    ∀ (k : Nat) (s : MDSection), (parse_md_file content)[k]? = some s →
      (newProfiles cfg language (parse_md_file content))[k]? =
        some (create_profile
          ("profile-" ++ cfg.idPref ++ "-" ++ pad3 (cfg.start_id + (k : Int)))
          s.title s.clues language cfg.category) := by
  have hne' : (parse_md_file content).isEmpty = false := by
    simpa using hne
  refine ⟨?_, newProfilesFrom_length cfg language 0 (parse_md_file content), ?_⟩
  · simp only [update_language, h1, h2, hne', hload, Bool.false_eq_true, if_false,
      validate_json_jsonWrite_some, if_true]
  · intro k s hk
    have h := newProfilesFrom_getElem? cfg language 0 (parse_md_file content) k s hk
    simpa [newProfiles, mkProfileId, Nat.zero_add] using h

theorem C1_sequential_ids_witness :
    ((∀ s ∈ parse_md_file mdW1, s.clues.length = 20) ∧ parse_md_file mdW1 ≠ []) ∧
    update_language Option.some cfgW1 fsW1 ("en") =
      .ok (FS.jsonWrite fsW1 (get_json_file cfgW1 ("en"))
             (some ⟨[] ++ newProfiles cfgW1 ("en") (parse_md_file mdW1)⟩),
           (parse_md_file mdW1).length) ∧
    (newProfiles cfgW1 ("en") (parse_md_file mdW1))[0]? =
      some (create_profile ("profile-" ++ "movie" ++ "-" ++ pad3 (76 + (0 : Int)))
        ("Alpha")
        (["a", "b", "c", "d", "e", "f", "g", "h", "i", "j", "k", "l", "m", "n", "o",
          "p", "q", "r", "s", "t"]) ("en") ("Movies")) := by
  have h := C1_sequential_ids cfgW1 fsW1 ("en") ("md/movies.md") mdW1 ⟨[]⟩
    rfl rfl (by decide) (by decide) rfl
  exact ⟨⟨by decide, by decide⟩, h.1, h.2.2 0 ⟨"Alpha", _⟩ (by decide)⟩

/-! ## Claim C2 -/

/-- C2: when the re-load/validation of the just-written dataset file fails
to parse as JSON (a write round trip `we` yielding an unparseable file),
`update_language` returns a count of 0 although the dataset file has already
been overwritten: the initial file parsed as the loaded dataset, the final
file does not parse, so the on-disk state changed despite the zero result. -/
theorem C2_zero_after_overwrite (we : Dataset → Option Dataset) (cfg : Config)
    (fs : FS) (language p content : String) (d : Dataset)
    (h1 : get_markdown_file fs cfg language = some p)
    (h2 : FS.mdRead fs p = some content)
    (hne : parse_md_file content ≠ [])
    (hload : load_json fs (get_json_file cfg language) = .ok d)
    (hwe : we ⟨d.profiles ++ newProfiles cfg language (parse_md_file content)⟩ = none) :
    update_language we cfg fs language =
      .ok (FS.jsonWrite fs (get_json_file cfg language) none, 0) ∧
    FS.jsonRead (FS.jsonWrite fs (get_json_file cfg language) none)
      (get_json_file cfg language) = some none ∧
    FS.jsonRead fs (get_json_file cfg language) = some (some d) := by
  have hne' : (parse_md_file content).isEmpty = false := by
    simpa using hne
  refine ⟨?_, jsonRead_jsonWrite_self fs (get_json_file cfg language) none,
    load_json_ok_read fs (get_json_file cfg language) d hload⟩
  simp only [update_language, h1, h2, hne', hload, hwe, Bool.false_eq_true, if_false,
    validate_json_jsonWrite_none]

theorem C2_zero_after_overwrite_witness :
    update_language (fun _ => none) cfgW1 fsW1 ("en") =
      .ok (FS.jsonWrite fsW1 (get_json_file cfgW1 ("en")) none, 0) ∧
    FS.jsonRead fsW1 (get_json_file cfgW1 ("en")) = some (some ⟨[]⟩) := by
  have h := C2_zero_after_overwrite (fun _ => none) cfgW1 fsW1 ("en") ("md/movies.md")
    mdW1 ⟨[]⟩ rfl rfl (by decide) rfl rfl
  exact ⟨h.1, h.2.2⟩

/-! ## Clue-line lemmas -/

/-- `clueOfLine` in terms of the first two characters of the line. -/
theorem clueOfLine_take (l : String) :
    clueOfLine l =
      if l.data.take 2 = ['-', ' '] then some (pyStrip ⟨l.data.drop 2⟩) else none := by
  rcases l with ⟨cs⟩
  match cs with
  | [] => simp [clueOfLine]
  | [c] => simp [clueOfLine]
  | c1 :: c2 :: rest =>
    by_cases h1 : c1 = '-' <;> by_cases h2 : c2 = ' ' <;>
      simp [clueOfLine, h1, h2]

/-- Every line whose first two characters are `- ` contributes exactly one
clue: the clue count equals the number of such lines. -/
theorem extractClues_length (ls : List String) :
    (extractClues ls).length =
      (ls.filter fun l => decide (l.data.take 2 = ['-', ' '])).length := by
  induction ls with
  | nil => rfl
  | cons l rest ih =>
    simp only [extractClues, List.filterMap_cons, clueOfLine_take, List.filter_cons] at ih ⊢
    by_cases h : l.data.take 2 = ['-', ' ']
    · simp [h, ih]
    · simp [h, ih]

/-- Stripping an all-whitespace character list yields the empty list. -/
theorem stripChars_all_ws (cs : List Char) (h : ∀ c ∈ cs, pyWs c = true) :
    stripChars cs = [] := by
  have : cs.dropWhile pyWs = [] := List.dropWhile_eq_nil_iff.mpr h
  simp [stripChars, this]

/-- A `- ` line whose remainder is whitespace contributes the empty string
as a clue. -/
theorem empty_clue_mem_extractClues (ls : List String) (l : String) (hl : l ∈ ls)
    (h2 : l.data.take 2 = ['-', ' ']) (hw : ∀ c ∈ l.data.drop 2, pyWs c = true) :
    ("") ∈ extractClues ls := by
  refine List.mem_filterMap.mpr ⟨l, hl, ?_⟩
  rw [clueOfLine_take, if_pos h2]
  have : pyStrip ⟨l.data.drop 2⟩ = "" := by
    show (⟨stripChars (l.data.drop 2)⟩ : String) = ""
    rw [stripChars_all_ws (l.data.drop 2) hw]
  rw [this]

/-- Inversion of `chunkTitleClues`: the clue list is `extractClues` of the
lines after the first of the stripped chunk. -/
theorem chunkTitleClues_clues (chunk t : String) (cl : List String)
    (h : chunkTitleClues chunk = some (t, cl)) :
    cl = extractClues ((splitLinesAux [] (pyStrip chunk).data).tail) := by
  unfold chunkTitleClues at h
  by_cases hs : pyStrip chunk = ""
  · simp [hs] at h
  · simp only [hs, if_false] at h
    cases hl : splitLinesAux [] (pyStrip chunk).data with
    | nil => rw [hl] at h; exact absurd h (by simp)
    | cons l0 rest =>
      rw [hl] at h
      by_cases h0 : l0 = ""
      · simp [h0] at h
      · simp only [h0, if_false] at h
        cases ht : titleMatch l0.data with
        | none => rw [ht] at h; exact absurd h (by simp)
        | some g =>
          rw [ht] at h
          simp only [Option.some.injEq, Prod.mk.injEq] at h
          rw [← h.2]
          rfl

/-! ## Claim C5 (corrected) -/

/-- C5 counterexample: the chunk `1. Alpha` has a parsed title and a clue
count of 0 ≠ 20, so the claim says it is still emitted; it does trigger the
warning, but `parse_md_file` drops it (zero-clue chunks are omitted). -/
theorem C5_zero_clue_chunk_dropped :
    (("1. Alpha") ∈ splitSections ("1. Alpha")) ∧
    chunkTitleClues ("1. Alpha") = some ("Alpha", []) ∧
    clueCountWarning ("1. Alpha") = true ∧
    parse_md_file ("1. Alpha") = [] := by
  decide

/-- C5 amended: a chunk whose title parses and whose clue count differs
from 20 triggers the warning, and — provided it has at least one clue — is
still emitted (title and clues appear in the returned sequence).  A chunk
with zero clues triggers the warning but is dropped. -/
theorem C5_warn_still_emitted (content chunk : String) (t : String) (cl : List String)
    (hc : chunk ∈ splitSections content)
    (h : chunkTitleClues chunk = some (t, cl))
    (hn : cl.length ≠ 20) :
    clueCountWarning chunk = true ∧
    (cl ≠ [] → MDSection.mk t cl ∈ parse_md_file content) := by
  constructor
  · simp [clueCountWarning, h, hn]
  · intro hne
    have hcl : cl.isEmpty = false := by simpa using hne
    exact mem_parse_md_file content chunk ⟨t, cl⟩ hc (by simp [processChunk, h, hcl])

theorem C5_warn_still_emitted_witness :
    (chunkTitleClues ("1. A\n- x") = some ("A", ["x"]) ∧ (["x"] : List String).length ≠ 20) ∧
    clueCountWarning ("1. A\n- x") = true ∧
    MDSection.mk ("A") (["x"]) ∈ parse_md_file ("1. A\n- x") := by
  have h := C5_warn_still_emitted ("1. A\n- x") ("1. A\n- x") ("A") (["x"])
    (by decide) (by decide) (by decide)
  exact ⟨⟨by decide, by decide⟩, h.1, h.2 (by decide)⟩

/-! ## Claim C10 (corrected) -/

/-- C10 counterexample: in the chunk `1. T\n- `, the line after the title
has `- ` as its first two characters, so the claim says it yields the empty
string as a clue and the chunk is emitted; but `parse_md_file` strips the
chunk before splitting it into lines, the trailing `- ` loses its marker,
and the chunk is dropped. -/
theorem C10_trailing_clue_line_dropped :
    splitSections ("1. T\n- ") = [("1. T\n- ")] ∧
    (splitLinesAux [] (String.data ("1. T\n- "))).tail = [("- ")] ∧
    (String.data ("- ")).take 2 = ['-', ' '] ∧
    parse_md_file ("1. T\n- ") = [] := by
  decide

/-- C10 amended: after the chunk is stripped of surrounding whitespace (so
a chunk-final `- ` line loses its marker), every line after the first whose
first two characters are `- ` contributes exactly one clue — the clue count
is the number of such lines — and such a line whose remainder is whitespace
contributes the empty string, which counts toward the clue count; a chunk
whose clue list is nonempty is emitted. -/
theorem C10_ws_clue_lines_count (content chunk : String) (t : String) (cl : List String)
    (hc : chunk ∈ splitSections content)
    (h : chunkTitleClues chunk = some (t, cl)) :
    cl.length = (((splitLinesAux [] (pyStrip chunk).data).tail).filter
        (fun l => decide (l.data.take 2 = ['-', ' ']))).length ∧
    (∀ l ∈ (splitLinesAux [] (pyStrip chunk).data).tail,
        l.data.take 2 = ['-', ' '] → (∀ c ∈ l.data.drop 2, pyWs c = true) → ("") ∈ cl) ∧
    (cl ≠ [] → MDSection.mk t cl ∈ parse_md_file content) := by
  have hcl := chunkTitleClues_clues chunk t cl h
  refine ⟨?_, ?_, ?_⟩
  · rw [hcl]
    exact extractClues_length _
  · intro l hl h2 hw
    rw [hcl]
    exact empty_clue_mem_extractClues _ l hl h2 hw
  · intro hne
    have hcl' : cl.isEmpty = false := by simpa using hne
    exact mem_parse_md_file content chunk ⟨t, cl⟩ hc (by simp [processChunk, h, hcl'])

theorem C10_ws_clue_lines_count_witness :
    chunkTitleClues ("1. T\n- \n- x") = some ("T", ["", "x"]) ∧
    ("") ∈ (["", "x"] : List String) ∧
    MDSection.mk ("T") (["", "x"]) ∈ parse_md_file ("1. T\n- \n- x") := by
  have h := C10_ws_clue_lines_count ("1. T\n- \n- x") ("1. T\n- \n- x") ("T") (["", "x"])
    (by decide) (by decide)
  exact ⟨by decide, h.2.1 ("- ") (by decide) (by decide) (by decide), h.2.2 (by decide)⟩

/-! ## Claim C7 (corrected) -/

/-- First-match characterization of `List.find?`. -/
theorem find?_first {α : Type} (p : α → Bool) (l : List α) (a : α)
    (h : l.find? p = some a) :
    ∃ t1 t2, l = t1 ++ a :: t2 ∧ (∀ x ∈ t1, p x = false) ∧ p a = true := by
  induction l with
  | nil => simp [List.find?] at h
  | cons x xs ih =>
    by_cases hp : p x
    · rw [List.find?_cons_of_pos _ hp] at h
      obtain rfl : x = a := by simpa using h
      exact ⟨[], xs, rfl, by simp, hp⟩
    · rw [List.find?_cons_of_neg _ hp] at h
      obtain ⟨t1, t2, rfl, h1, h2⟩ := ih h
      refine ⟨x :: t1, t2, rfl, ?_, h2⟩
      intro q hq
      rcases List.mem_cons.mp hq with rfl | hq
      · exact Bool.of_not_eq_true hp
      · exact h1 q hq

/-- C7 counterexample: with `movies_md.md` and `movies_en.md` present, the
code returns `movies_md.md` (the `_md` variant of the base name is tried
second), while the claim's candidate order — all three base names before
any `_md` variant — would return `movies_en.md`. -/
theorem C7_candidate_order_cex :
    get_markdown_file fsW7 cfgW7 ("en") = some ("md/movies_md.md") ∧
    (markdownCandidatesSpec cfgW7 ("en")).find? (fun p => FS.mdExists fsW7 p) =
      some ("md/movies_en.md") ∧
    ("md/movies_md.md") ≠ ("md/movies_en.md") := by
  decide

/-- C7 amended: `get_markdown_file` tries the candidates in the code's
interleaved order `{cat}.md`, `{cat}_md.md`, `{cat}_{lang}.md`,
`{cat}_{lang}_md.md`, `{cat}-{lang}.md`, `{cat}-{lang}_md.md` (category
lowercased), returns the first existing candidate — every earlier candidate
does not exist — and reports FileNotFound (`none`) exactly when no
candidate exists. -/
theorem C7_candidate_order (fs : FS) (cfg : Config) (language : String) :
    markdownCandidates cfg language =
      [cfg.markdown_dir ++ "/" ++ pyLower cfg.category ++ ".md",
       cfg.markdown_dir ++ "/" ++ pyLower cfg.category ++ "_md.md",
       cfg.markdown_dir ++ "/" ++ pyLower cfg.category ++ "_" ++ language ++ ".md",
       cfg.markdown_dir ++ "/" ++ pyLower cfg.category ++ "_" ++ language ++ "_md.md",
       cfg.markdown_dir ++ "/" ++ pyLower cfg.category ++ "-" ++ language ++ ".md",
       cfg.markdown_dir ++ "/" ++ pyLower cfg.category ++ "-" ++ language ++ "_md.md"] ∧
    (∀ p, get_markdown_file fs cfg language = some p →
      ∃ t1 t2, markdownCandidates cfg language = t1 ++ p :: t2 ∧
        (∀ q ∈ t1, FS.mdExists fs q = false) ∧ FS.mdExists fs p = true) ∧
    (get_markdown_file fs cfg language = none ↔
      ∀ q ∈ markdownCandidates cfg language, FS.mdExists fs q = false) := by
  refine ⟨?_, ?_, ?_⟩
  · simp [markdownCandidates, String.append_assoc]
  · intro p hp
    exact find?_first _ _ p hp
  · constructor
    · intro h q hq
      have := List.find?_eq_none.mp h q hq
      exact Bool.of_not_eq_true this
    · intro h
      exact List.find?_eq_none.mpr fun q hq => by simp [h q hq]

theorem C7_candidate_order_witness :
    get_markdown_file fsW7 cfgW7 ("en") = some ("md/movies_md.md") ∧
    FS.mdExists fsW7 ("md/movies_md.md") = true := by
  have h := C7_candidate_order fsW7 cfgW7 ("en")
  obtain ⟨t1, t2, heq, hall, hex⟩ := h.2.1 ("md/movies_md.md") (by decide)
  exact ⟨by decide, hex⟩

/-! ## update_all_languages lemmas -/

theorem update_all_go_append (we : Dataset → Option Dataset) (cfg : Config) (fs : FS)
    (acc : List (String × Nat)) (xs ys : List String) :
    update_all_go we cfg fs acc (xs ++ ys) =
      update_all_go we cfg (update_all_go we cfg fs acc xs).1
        (update_all_go we cfg fs acc xs).2 ys := by
  induction xs generalizing fs acc with
  | nil => rfl
  | cons x rest ih =>
    cases h : update_language we cfg fs x with
    | ok p =>
      obtain ⟨fs', count⟩ := p
      simp only [List.cons_append, update_all_go, h]
      exact ih fs' (dictInsert acc x count)
    | error e =>
      simp only [List.cons_append, update_all_go, h]
      exact ih fs (dictInsert acc x 0)

theorem update_all_go_keys (we : Dataset → Option Dataset) (cfg : Config) (fs : FS)
    (acc : List (String × Nat)) (ls : List String) (x : String) :
    x ∈ ((update_all_go we cfg fs acc ls).2.map Prod.fst) ↔
      x ∈ acc.map Prod.fst ∨ x ∈ ls := by
  induction ls generalizing fs acc with
  | nil => simp [update_all_go]
  | cons l rest ih =>
    cases h : update_language we cfg fs l with
    | ok p =>
      obtain ⟨fs', count⟩ := p
      simp only [update_all_go, h, ih, mem_keys_dictInsert, List.mem_cons]
      tauto
    | error e =>
      simp only [update_all_go, h, ih, mem_keys_dictInsert, List.mem_cons]
      tauto

theorem update_all_go_nodup (we : Dataset → Option Dataset) (cfg : Config) (fs : FS)
    (acc : List (String × Nat)) (ls : List String)
    (h : (acc.map Prod.fst).Nodup) :
    (((update_all_go we cfg fs acc ls).2.map Prod.fst)).Nodup := by
  induction ls generalizing fs acc with
  | nil => simpa [update_all_go] using h
  | cons l rest ih =>
    cases hu : update_language we cfg fs l with
    | ok p =>
      obtain ⟨fs', count⟩ := p
      simp only [update_all_go, hu]
      exact ih fs' _ (nodup_keys_dictInsert acc l count h)
    | error e =>
      simp only [update_all_go, hu]
      exact ih fs _ (nodup_keys_dictInsert acc l 0 h)

theorem update_all_go_lookup_not_mem (we : Dataset → Option Dataset) (cfg : Config)
    (fs : FS) (acc : List (String × Nat)) (ls : List String) (x : String)
    (hx : x ∉ ls) :
    dictLookup (update_all_go we cfg fs acc ls).2 x = dictLookup acc x := by
  induction ls generalizing fs acc with
  | nil => rfl
  | cons l rest ih =>
    have hxl : x ≠ l := fun h => hx (h ▸ List.mem_cons_self l rest)
    have hxr : x ∉ rest := fun h => hx (List.mem_cons_of_mem l h)
    cases hu : update_language we cfg fs l with
    | ok p =>
      obtain ⟨fs', count⟩ := p
      simp only [update_all_go, hu]
      rw [ih fs' _ hxr, dictLookup_dictInsert_ne acc l x count hxl]
    | error e =>
      simp only [update_all_go, hu]
      rw [ih fs _ hxr, dictLookup_dictInsert_ne acc l x 0 hxl]

/-! ## Claim C3 -/

/-- C3: `update_all_languages` returns a mapping with exactly one entry per
requested language — every requested language is a key, nothing else is,
and the keys are without duplicates — and no exception escapes: when
`update_language` raises for a language (at the state in which its last
occurrence is processed), that language's count is recorded as 0 while all
remaining languages are still processed and present in the result. -/
theorem C3_exception_isolation (we : Dataset → Option Dataset) (cfg : Config) (fs : FS)
    (as bs : List String) (l : String) (hl : l ∉ bs) :
    (∀ x, x ∈ as ++ l :: bs ↔
      (dictLookup (update_all_languages we cfg fs (as ++ l :: bs)).2 x).isSome = true) ∧
    ((update_all_languages we cfg fs (as ++ l :: bs)).2.map Prod.fst).Nodup ∧
    (∀ e, update_language we cfg (update_all_languages we cfg fs as).1 l = .error e →
      dictLookup (update_all_languages we cfg fs (as ++ l :: bs)).2 l = some 0) := by
  refine ⟨?_, ?_, ?_⟩
  · intro x
    rw [dictLookup_isSome_iff]
    simp only [update_all_languages, update_all_go_keys]
    simp
  · exact update_all_go_nodup we cfg fs [] _ (by simp)
  · intro e he
    simp only [update_all_languages] at he ⊢
    rw [update_all_go_append]
    simp only [update_all_go, he]
    rw [update_all_go_lookup_not_mem _ _ _ _ _ _ hl]
    exact dictLookup_dictInsert_self _ l 0

theorem C3_exception_isolation_witness :
    (("en") ∉ (["es"] : List String)) ∧
    dictLookup (update_all_languages Option.some cfgW7 ⟨[], []⟩ (["en", "es"])).2
      ("en") = some 0 ∧
    (("es") ∈ (["en", "es"] : List String) ↔
      (dictLookup (update_all_languages Option.some cfgW7 ⟨[], []⟩ (["en", "es"])).2
        ("es")).isSome = true) := by
  have h := C3_exception_isolation Option.some cfgW7 ⟨[], []⟩ [] (["es"]) ("en")
    (by decide)
  exact ⟨by decide, h.2.2 PyErr.fileNotFound rfl, h.1 ("es")⟩

/-! ## Manifest lemmas -/

theorem updateCategoryLocales_ok (fs : FS) (cfg : Config) (langs : List String)
    (c : CategoryEntry) (dsOf : String → Dataset)
    (hload : ∀ l ∈ langs, load_json fs (get_json_file cfg l) = .ok (dsOf l)) :
    updateCategoryLocales fs cfg c langs =
      .ok { c with
        locales := c.locales.map fun kv =>
          if kv.1 ∈ langs then (kv.1, ⟨(dsOf kv.1).profiles.length⟩) else kv } := by
  induction langs generalizing c with
  | nil =>
    simp [updateCategoryLocales]
  | cons l ls ih =>
    simp only [updateCategoryLocales, hload l (List.mem_cons_self l ls)]
    have hload' : ∀ x ∈ ls, load_json fs (get_json_file cfg x) = .ok (dsOf x) :=
      fun x hx => hload x (List.mem_cons_of_mem l hx)
    by_cases hmem : (dictLookup c.locales l).isSome = true
    · rw [if_pos hmem, ih _ hload']
      simp only [setLocaleAmount, Except.ok.injEq, CategoryEntry.mk.injEq, true_and]
      rw [List.map_map]
      apply List.map_congr_left
      intro kv hkv
      obtain ⟨k, v⟩ := kv
      by_cases h2 : k = l <;> by_cases h1 : k ∈ ls <;>
        simp [h1, h2, Function.comp, List.mem_cons]
    · rw [if_neg hmem, ih _ hload']
      have hnone : dictLookup c.locales l = none :=
        Option.not_isSome_iff_eq_none.mp (by simpa using hmem)
      simp only [Except.ok.injEq, CategoryEntry.mk.injEq, true_and]
      apply List.map_congr_left
      intro kv hkv
      have hne : kv.1 ≠ l := dictLookup_eq_none_keys c.locales l hnone kv hkv
      obtain ⟨k, v⟩ := kv
      by_cases h1 : k ∈ ls <;> simp [h1, hne, List.mem_cons]

theorem updateManifestCategories_ok (fs : FS) (cfg : Config) (langs : List String)
    (dsOf : String → Dataset)
    (hload : ∀ l ∈ langs, load_json fs (get_json_file cfg l) = .ok (dsOf l))
    (cats : List CategoryEntry) :
    updateManifestCategories fs cfg langs cats =
      .ok (cats.map fun c =>
        if c.slug = pyLower cfg.category then
          { c with
            locales := c.locales.map fun kv =>
              if kv.1 ∈ langs then (kv.1, ⟨(dsOf kv.1).profiles.length⟩) else kv }
        else c) := by
  induction cats with
  | nil => rfl
  | cons c rest ih =>
    simp only [updateManifestCategories]
    by_cases hs : c.slug = pyLower cfg.category
    · rw [if_pos hs, updateCategoryLocales_ok fs cfg langs c dsOf hload]
      simp [ih, hs]
    · rw [if_neg hs]
      simp [ih, hs]

/-! ## Claim C8 -/

/-- C8: when every requested language's dataset file loads, the manifest
step maps every category entry whose slug equals the lowercased category
name to the entry in which, for every locale key that is a requested
language, `profileAmount` is overwritten with the total number of profiles
in that language's dataset file; locale keys of non-requested languages and
category entries with a different slug are left unchanged. -/
theorem C8_manifest_counts (fs : FS) (cfg : Config) (langs : List String)
    (m : Manifest) (dsOf : String → Dataset)
    (hload : ∀ l ∈ langs, load_json fs (get_json_file cfg l) = .ok (dsOf l)) :
    update_manifest fs cfg langs m =
      .ok ⟨m.categories.map fun c =>
        if c.slug = pyLower cfg.category then
          { c with
            locales := c.locales.map fun kv =>
              if kv.1 ∈ langs then (kv.1, ⟨(dsOf kv.1).profiles.length⟩) else kv }
        else c⟩ := by
  simp only [update_manifest,
    updateManifestCategories_ok fs cfg langs dsOf hload m.categories]

theorem C8_manifest_counts_witness :
    update_manifest fsW8 cfgW7 (["en"]) manW8 =
      .ok ⟨[⟨"movies", [("en", ⟨77⟩), ("fr", ⟨10⟩)]⟩, ⟨"books", [("en", ⟨3⟩)]⟩]⟩ := by
  have h := C8_manifest_counts fsW8 cfgW7 (["en"]) manW8 (fun _ => dsW8)
    (by intro l hl; rw [List.mem_singleton.mp hl]; rfl)
  rw [h]
  rfl

/-! ## Claim C9 -/

/-- C9: the exit code of `main` is 0 when the sum of per-language
added-profile counts over all requested languages is positive, and 1
otherwise; the manifest-update step — whatever its argument and outcome,
caught exceptions included — does not change the exit code. -/
theorem C9_exit_code (we : Dataset → Option Dataset) (fs : FS) (a : Args) :
    (main_run we fs a).exitCode =
      (if 0 < ((update_all_languages we (cfgOfArgs a) fs a.languages).2.map Prod.snd).sum
       then 0 else 1) ∧
    ∀ mOpt : Option (Option Manifest),
      (main_run we fs { a with manifest := mOpt }).exitCode =
        (main_run we fs a).exitCode := by
  exact ⟨rfl, fun _ => rfl⟩

/-! ## Claim C6 (corrected) -/

/-- C6 counterexample: `2.\tB` matches `^\d+\.\s` (tab is whitespace), so
the claim's split cuts before it; the code's pattern `\n(?=\d+\. )` requires
a literal space, does not cut, and the parser yields one section `A` with
clues `a` and `b` instead of two sections. -/
theorem C6_whitespace_split_cex :
    splitSections ("1. A\n- a\n2.\tB\n- b") = [("1. A\n- a\n2.\tB\n- b")] ∧
    splitSectionsSpec ("1. A\n- a\n2.\tB\n- b") = [("1. A\n- a"), ("2.\tB\n- b")] ∧
    parse_md_file ("1. A\n- a\n2.\tB\n- b") =
      [⟨("A"), [("a"), ("b")]⟩] ∧
    isHeaderStartSpec (String.data ("2.\tB")) = true ∧
    isHeaderStart (String.data ("2.\tB")) = false := by
  decide

theorem bool_and_true {a b : Bool} (h : (a && b) = true) : a = true ∧ b = true :=
  (Bool.and_eq_true a b).mp h

theorem bool_and_intro {a b : Bool} (h1 : a = true) (h2 : b = true) : (a && b) = true :=
  (Bool.and_eq_true a b).mpr ⟨h1, h2⟩

theorem joinNl_cons (a : List Char) (l : List (List Char)) (h : l ≠ []) :
    joinNl (a :: l) = a ++ '\n' :: joinNl l := by
  cases l with
  | nil => exact absurd rfl h
  | cons b bs => rfl

theorem splitSectionsAux_ne_nil (cur cs : List Char) : splitSectionsAux cur cs ≠ [] := by
  induction cs generalizing cur with
  | nil => simp [splitSectionsAux]
  | cons c rest ih =>
    simp only [splitSectionsAux]
    by_cases h : (c = '\n' && isHeaderStart rest) = true
    · rw [if_pos h]
      simp
    · rw [if_neg h]
      exact ih (c :: cur)

theorem joinNl_splitSectionsAux (cs : List Char) :
    ∀ cur, joinNl (splitSectionsAux cur cs) = cur.reverse ++ cs := by
  induction cs with
  | nil =>
    intro cur
    simp [splitSectionsAux, joinNl]
  | cons c rest ih =>
    intro cur
    simp only [splitSectionsAux]
    by_cases h : (c = '\n' && isHeaderStart rest) = true
    · rw [if_pos h, joinNl_cons _ _ (splitSectionsAux_ne_nil [] rest), ih []]
      have hc : c = '\n' := of_decide_eq_true (bool_and_true h).1
      subst hc
      simp
    · rw [if_neg h, ih (c :: cur)]
      simp

theorem splitSectionsAux_head (cs : List Char) :
    ∀ cur, ∃ l, splitSectionsAux cur cs = (cur.reverse ++ firstChunk cs) :: l := by
  induction cs with
  | nil =>
    intro cur
    exact ⟨[], by simp [splitSectionsAux, firstChunk]⟩
  | cons c rest ih =>
    intro cur
    simp only [splitSectionsAux, firstChunk]
    by_cases h : (c = '\n' && isHeaderStart rest) = true
    · rw [if_pos h, if_pos h]
      exact ⟨splitSectionsAux [] rest, by simp⟩
    · rw [if_neg h, if_neg h]
      obtain ⟨l, hl⟩ := ih (c :: cur)
      refine ⟨l, ?_⟩
      rw [hl]
      simp

theorem headerTail_firstChunk (cs : List Char) (h : headerTail cs = true) :
    headerTail (firstChunk cs) = true := by
  induction cs with
  | nil => simp [headerTail] at h
  | cons c rest ih =>
    rw [headerTail] at h
    by_cases hc : c = '.'
    · rw [if_pos hc] at h
      cases rest with
      | nil => simp [headSpace] at h
      | cons c2 rest2 =>
        have h2 : c2 = ' ' := by simpa [headSpace] using h
        subst hc
        subst h2
        rw [firstChunk, if_neg (by simp)]
        rw [firstChunk, if_neg (by simp)]
        simp [headerTail, headSpace]
    · rw [if_neg hc] at h
      obtain ⟨hd, ht⟩ := bool_and_true h
      have hcn : c ≠ '\n' := by
        intro he
        rw [he] at hd
        exact absurd hd (by decide)
      rw [firstChunk, if_neg (by simp [hcn])]
      rw [headerTail, if_neg hc]
      exact bool_and_intro hd (ih ht)

theorem isHeaderStart_firstChunk (cs : List Char) (h : isHeaderStart cs = true) :
    isHeaderStart (firstChunk cs) = true := by
  cases cs with
  | nil => simp [isHeaderStart] at h
  | cons c rest =>
    rw [isHeaderStart] at h
    obtain ⟨hd, ht⟩ := bool_and_true h
    have hcn : c ≠ '\n' := by
      intro he
      rw [he] at hd
      exact absurd hd (by decide)
    rw [firstChunk, if_neg (by simp [hcn]), isHeaderStart]
    exact bool_and_intro hd (headerTail_firstChunk rest ht)

theorem splitSectionsAux_tail_headers (cs : List Char) :
    ∀ cur, ∀ x ∈ (splitSectionsAux cur cs).tail, isHeaderStart x = true := by
  induction cs with
  | nil =>
    intro cur x hx
    simp [splitSectionsAux] at hx
  | cons c rest ih =>
    intro cur x hx
    simp only [splitSectionsAux] at hx
    by_cases h : (c = '\n' && isHeaderStart rest) = true
    · rw [if_pos h] at hx
      simp only [List.tail_cons] at hx
      have hh : isHeaderStart rest = true := (bool_and_true h).2
      obtain ⟨l, hl⟩ := splitSectionsAux_head rest []
      rw [hl] at hx
      rcases List.mem_cons.mp hx with rfl | hx'
      · simpa using isHeaderStart_firstChunk rest hh
      · apply ih []
        rw [hl]
        simpa using hx'
    · rw [if_neg h] at hx
      exact ih (c :: cur) x hx

theorem headerTail_append (xs ys : List Char) (h : headerTail xs = true) :
    headerTail (xs ++ ys) = true := by
  induction xs with
  | nil => simp [headerTail] at h
  | cons c rest ih =>
    rw [headerTail] at h
    by_cases hc : c = '.'
    · rw [if_pos hc] at h
      cases rest with
      | nil => simp [headSpace] at h
      | cons c2 r2 =>
        have h2 : c2 = ' ' := by simpa [headSpace] using h
        subst hc
        subst h2
        simp [headerTail, headSpace]
    · rw [if_neg hc] at h
      obtain ⟨hd, ht⟩ := bool_and_true h
      rw [List.cons_append, headerTail, if_neg hc]
      exact bool_and_intro hd (ih ht)

theorem isHeaderStart_append (xs ys : List Char) (h : isHeaderStart xs = true) :
    isHeaderStart (xs ++ ys) = true := by
  cases xs with
  | nil => simp [isHeaderStart] at h
  | cons c rest =>
    rw [isHeaderStart] at h
    obtain ⟨hd, ht⟩ := bool_and_true h
    rw [List.cons_append, isHeaderStart]
    exact bool_and_intro hd (headerTail_append rest ys ht)

theorem no_internal_header (cs : List Char) :
    ∀ cur, (∀ a b, cur = a ++ '\n' :: b → isHeaderStart (a.reverse ++ cs) = false) →
      ∀ x ∈ splitSectionsAux cur cs, ∀ pre post, x = pre ++ '\n' :: post →
        isHeaderStart post = false := by
  induction cs with
  | nil =>
    intro cur hinv x hx pre post hx2
    simp only [splitSectionsAux, List.mem_singleton] at hx
    subst hx
    have hcur : cur = post.reverse ++ '\n' :: pre.reverse := by
      have h2 := congrArg List.reverse hx2
      rw [List.reverse_reverse] at h2
      rw [h2]
      simp [List.reverse_append]
    have h3 := hinv post.reverse pre.reverse hcur
    simpa using h3
  | cons c rest ih =>
    intro cur hinv x hx pre post hx2
    simp only [splitSectionsAux] at hx
    by_cases h : (c = '\n' && isHeaderStart rest) = true
    · rw [if_pos h] at hx
      rcases List.mem_cons.mp hx with rfl | hx'
      · have hcur : cur = post.reverse ++ '\n' :: pre.reverse := by
          have h2 := congrArg List.reverse hx2
          rw [List.reverse_reverse] at h2
          rw [h2]
          simp [List.reverse_append]
        have hfalse := hinv post.reverse pre.reverse hcur
        rw [List.reverse_reverse] at hfalse
        cases hb : isHeaderStart post with
        | false => rfl
        | true =>
          have htrue := isHeaderStart_append post (c :: rest) hb
          rw [hfalse] at htrue
          exact absurd htrue (by simp)
      · exact ih [] (by intro a b hab; simp at hab) x hx' pre post hx2
    · rw [if_neg h] at hx
      refine ih (c :: cur) ?_ x hx pre post hx2
      intro a b hab
      cases a with
      | nil =>
        simp only [List.nil_append] at hab
        injection hab with hc hcurb
        have hrest : isHeaderStart rest = false := by
          cases hb : isHeaderStart rest with
          | false => rfl
          | true =>
            exfalso
            apply h
            rw [hc]
            simp [hb]
        simpa using hrest
      | cons a0 a' =>
        injection hab with hc hcur
        have h2 := hinv a' b hcur
        rw [← hc]
        rw [List.reverse_cons, List.append_assoc]
        simpa using h2

/-- Full inversion of `chunkTitleClues`: the title comes from the title
pattern matched on the first line of the stripped chunk (group 1,
stripped), and the clues from the `- ` lines among the remaining lines. -/
theorem chunkTitleClues_inv (chunk t : String) (cl : List String)
    (h : chunkTitleClues chunk = some (t, cl)) :
    ∃ l0 rest g, splitLinesAux [] (pyStrip chunk).data = l0 :: rest ∧
      titleMatch l0.data = some g ∧ t = pyStrip ⟨g⟩ ∧ cl = extractClues rest := by
  unfold chunkTitleClues at h
  by_cases hs : pyStrip chunk = ""
  · simp [hs] at h
  · simp only [hs, if_false] at h
    cases hl : splitLinesAux [] (pyStrip chunk).data with
    | nil =>
      rw [hl] at h
      exact absurd h (by simp)
    | cons l0 rest =>
      rw [hl] at h
      by_cases h0 : l0 = ""
      · simp [h0] at h
      · simp only [h0, if_false] at h
        cases ht : titleMatch l0.data with
        | none =>
          rw [ht] at h
          exact absurd h (by simp)
        | some g =>
          rw [ht] at h
          simp only [Option.some.injEq, Prod.mk.injEq] at h
          exact ⟨l0, rest, g, rfl, ht, h.1.symm, h.2.symm⟩

theorem splitSections_tail (content : String) :
    (splitSections content).tail =
      ((splitSectionsAux [] content.data).tail).map fun cs => (⟨cs⟩ : String) := by
  unfold splitSections
  cases splitSectionsAux [] content.data <;> simp

/-- C6 amended: `parse_md_file` splits the content exactly at every newline
immediately preceding a line matching `\d+\.` followed by a literal space
(not any whitespace character): the chunks joined back with newlines give
the content, every chunk after the first starts with such a header, and no
chunk has an internal newline followed by such a header.  Within each chunk
the title is group 1 of `^\d+\.\s+(.+)` on the first line of the stripped
chunk (trimmed), and the clues come from the subsequent lines starting with
`- ` (remainder trimmed). -/
theorem C6_split_and_extraction (content : String) :
    joinNl ((splitSections content).map String.data) = content.data ∧
    (∀ s ∈ (splitSections content).tail, isHeaderStart s.data = true) ∧
    (∀ s ∈ splitSections content, ∀ pre post, s.data = pre ++ '\n' :: post →
      isHeaderStart post = false) ∧
    (∀ chunk t cl, chunkTitleClues chunk = some (t, cl) →
      ∃ l0 rest g, splitLinesAux [] (pyStrip chunk).data = l0 :: rest ∧
        titleMatch l0.data = some g ∧ t = pyStrip ⟨g⟩ ∧ cl = extractClues rest) := by
  refine ⟨?_, ?_, ?_, fun chunk t cl h => chunkTitleClues_inv chunk t cl h⟩
  · have hmap : (splitSections content).map String.data = splitSectionsAux [] content.data := by
      unfold splitSections
      rw [List.map_map]
      have hid : (String.data ∘ fun cs : List Char => (⟨cs⟩ : String)) = id :=
        funext fun cs => rfl
      rw [hid, List.map_id]
    rw [hmap]
    simpa using joinNl_splitSectionsAux content.data []
  · intro s hs
    rw [splitSections_tail] at hs
    obtain ⟨x, hx, rfl⟩ := List.mem_map.mp hs
    exact splitSectionsAux_tail_headers content.data [] x hx
  · intro s hs pre post heq
    simp only [splitSections] at hs
    obtain ⟨x, hx, rfl⟩ := List.mem_map.mp hs
    exact no_internal_header content.data []
      (by intro a b hab; simp at hab) x hx pre post heq

theorem C6_split_and_extraction_witness :
    joinNl ((splitSections ("1. A\n- a\n2. B")).map String.data) =
      String.data ("1. A\n- a\n2. B") ∧
    isHeaderStart (String.data ("2. B")) = true := by
  have h := C6_split_and_extraction ("1. A\n- a\n2. B")
  exact ⟨h.1, h.2.1 ("2. B") (by decide)⟩

/-! ## Claim C4 -/

/-- C4: on the markdown input `1. Alpha / - clueA / - clueB / (blank) /
2. Beta / - clueC` with an existing dataset `{"profiles": []}`, start id 1,
id prefix `movie`, language `en` and category `Movies`, `update_language`
appends exactly the two profiles `profile-movie-001` (name `Alpha`, clues
`clueA`, `clueB`) and `profile-movie-002` (name `Beta`, clue `clueC`), in
that order, each with metadata language `en`, difficulty `medium`, source
`entertainment`, and returns the count 2. -/
theorem C4_concrete_two_profiles :
    update_language Option.some ⟨"Movies", "movie", "jd", "md", 1⟩
      ⟨[("md/movies.md", "1. Alpha\n- clueA\n- clueB\n\n2. Beta\n- clueC")],
       [("jd/movies/en/data-1.json", some ⟨[]⟩)]⟩ ("en") =
    .ok (⟨[("md/movies.md", "1. Alpha\n- clueA\n- clueB\n\n2. Beta\n- clueC")],
          [("jd/movies/en/data-1.json", some ⟨[
            ⟨"profile-movie-001", "Movies", "Alpha", ["clueA", "clueB"],
              ⟨"en", "medium", "entertainment"⟩⟩,
            ⟨"profile-movie-002", "Movies", "Beta", ["clueC"],
              ⟨"en", "medium", "entertainment"⟩⟩]⟩)]⟩, 2) := by
  rfl

end MarkdownToJson
